import Mathlib

/-!
Verification of the offer discovery and curation pipeline of `bot_auto_post.py`
(repository Luizkam/bot_auto_post) against its natural-language specification.

Strings are embedded as `List Char` so that every text-processing function of
the source is an executable, kernel-evaluable Lean function.  Each definition
is a direct translation of the Python function of the same name; the regular
expressions of the source are translated into dedicated matching functions
whose backtracking order follows Python's `re` semantics (leftmost search,
greedy/lazy quantifier priority).  Character-level facts that depend on the
Unicode database (NFKD decomposition, `\w`, `\s`) are embedded for the
ASCII and Latin-1 ranges, which cover every character class the program's
keyword lists, regexes and vocabulary use.
-/

abbrev Str := List Char

/-- Python `\s` / `str.split()` whitespace, restricted to ASCII plus NBSP. -/
def isSpaceCh (c : Char) : Bool :=
  c = ' ' || c = '\t' || c = '\n' || c = '\r' ||
  c = Char.ofNat 11 || c = Char.ofNat 12 || c = Char.ofNat 0xA0

/-- ASCII digit, the `\d` class on the texts in scope. -/
def isDigitCh (c : Char) : Bool := '0' ≤ c && c ≤ '9'

/-- Python `\w` (word character) restricted to ASCII and Latin-1 letters. -/
def isWordCh (c : Char) : Bool :=
  let n := c.toNat
  ('a' ≤ c && c ≤ 'z') || ('A' ≤ c && c ≤ 'Z') || isDigitCh c || c = '_' ||
  (decide (0xC0 ≤ n) && decide (n ≤ 0xFF) && !(n = 0xD7) && !(n = 0xF7)) ||
  n = 0xAA || n = 0xB5 || n = 0xBA

/-- ASCII/Latin-1 lowercasing, as used by `re.IGNORECASE` comparisons here. -/
def lowerCh (c : Char) : Char :=
  let n := c.toNat
  if 'A' ≤ c && c ≤ 'Z' then Char.ofNat (n + 32)
  else if decide (0xC0 ≤ n) && decide (n ≤ 0xDE) && !(n = 0xD7) then Char.ofNat (n + 32)
  else c

/-- Predicate `listStartsWith p s` : `p` is a prefix of `s` (Python `s.startswith(p)`). -/
def listStartsWith : Str → Str → Bool
  | [], _ => true
  | _ :: _, [] => false
  | a :: as, b :: bs => a == b && listStartsWith as bs

/-- Python's substring containment `needle in hay`. -/
def pyIn (n : Str) : Str → Bool
  | [] => listStartsWith n []
  | c :: t => listStartsWith n (c :: t) || pyIn n t

/-- Python `str.split()` (split on whitespace runs, dropping empty parts). -/
def splitAux : Str → Str → List Str
  | [], acc => if acc.isEmpty then [] else [acc.reverse]
  | c :: t, acc =>
    if isSpaceCh c then
      (if acc.isEmpty then splitAux t [] else acc.reverse :: splitAux t [])
    else splitAux t (c :: acc)

def pySplit (s : Str) : List Str := splitAux s []

/-- Python `" ".join(words)`. -/
def joinSpace : List Str → Str
  | [] => []
  | [w] => w
  | w :: ws => w ++ ' ' :: joinSpace ws

/-- Python `str.strip()`. -/
def pyStrip (s : Str) : Str :=
  ((s.dropWhile isSpaceCh).reverse.dropWhile isSpaceCh).reverse

/-- Python `str.strip(chars)`. -/
def stripSet (cs : Str) (s : Str) : Str :=
  ((s.dropWhile (cs.contains ·)).reverse.dropWhile (cs.contains ·)).reverse

/-- Python `str.replace(old, new)` for a non-empty `old` (fuelled scan). -/
def pyReplaceAux : Nat → Str → Str → Str → Str
  | 0, s, _, _ => s
  | _ + 1, [], _, _ => []
  | f + 1, c :: t, old, new =>
    if listStartsWith old (c :: t) && !old.isEmpty then
      new ++ pyReplaceAux f ((c :: t).drop old.length) old new
    else c :: pyReplaceAux f t old new

def pyReplace (s old new : Str) : Str := pyReplaceAux s.length s old new

/-- Python `text.replace("\xa0", " ")`, applied by the source before price regexes. -/
def nbspFix (s : Str) : Str := s.map (fun c => if c.toNat = 0xA0 then ' ' else c)

/-- Python `html.unescape`, embedded for the common named/numeric entities; other
text (including bare `&`) is left unchanged. -/
def unescapeAux : Nat → Str → Str
  | 0, s => s
  | _ + 1, [] => []
  | f + 1, c :: t =>
    if c = '&' then
      if listStartsWith "amp;".toList t then '&' :: unescapeAux f (t.drop 4)
      else if listStartsWith "lt;".toList t then '<' :: unescapeAux f (t.drop 3)
      else if listStartsWith "gt;".toList t then '>' :: unescapeAux f (t.drop 3)
      else if listStartsWith "quot;".toList t then '"' :: unescapeAux f (t.drop 5)
      else if listStartsWith "nbsp;".toList t then Char.ofNat 0xA0 :: unescapeAux f (t.drop 5)
      else if listStartsWith "#39;".toList t then '\'' :: unescapeAux f (t.drop 4)
      else c :: unescapeAux f t
    else c :: unescapeAux f t

def htmlUnescape (s : Str) : Str := unescapeAux s.length s

/-- One character of `s.lower()` → NFKD → ascii-encode(ignore), for ASCII and
Latin-1 input; characters whose NFKD form has no ASCII part are dropped,
exactly as `encode("ascii", "ignore")` drops them. -/
def asciiFold (c : Char) : Str :=
  let n := c.toNat
  if n < 0x80 then [lowerCh c]
  else if n = 0xA0 then [' ']
  else if n = 0xAA then ['a']
  else if n = 0xBA then ['o']
  else if n = 0xB9 then ['1']
  else if n = 0xB2 then ['2']
  else if n = 0xB3 then ['3']
  else if n = 0xBC then ['1', '4']
  else if n = 0xBD then ['1', '2']
  else if n = 0xBE then ['3', '4']
  else if (0xC0 ≤ n && n ≤ 0xC5) || (0xE0 ≤ n && n ≤ 0xE5) then ['a']
  else if n = 0xC7 || n = 0xE7 then ['c']
  else if (0xC8 ≤ n && n ≤ 0xCB) || (0xE8 ≤ n && n ≤ 0xEB) then ['e']
  else if (0xCC ≤ n && n ≤ 0xCF) || (0xEC ≤ n && n ≤ 0xEF) then ['i']
  else if n = 0xD1 || n = 0xF1 then ['n']
  else if (0xD2 ≤ n && n ≤ 0xD6) || (0xF2 ≤ n && n ≤ 0xF6) then ['o']
  else if (0xD9 ≤ n && n ≤ 0xDC) || (0xF9 ≤ n && n ≤ 0xFC) then ['u']
  else if n = 0xDD || n = 0xFD || n = 0xFF then ['y']
  else []

/-- Embedding of `_normalize_text`: lower-case, accent-strip to ASCII, collapse whitespace. -/
def _normalize_text (s : Str) : Str :=
  joinSpace (pySplit (s.flatMap asciiFold))

-- ----------------- FILTER (default keyword lists of the source) -----------------

def DEFAULT_FILTER_KEYWORDS : List Str :=
  ["placa de video".toList, "placa de vídeo".toList, "placa mãe".toList,
   "placa mae".toList, "motherboard".toList,
   "gpu".toList, "rtx".toList, "gtx".toList, "radeon".toList, "rx".toList, "vga".toList,
   "ssd".toList, "nvme".toList, "m.2".toList, "m2".toList, "hd".toList, "hdd".toList,
   "memoria ram".toList, "memória ram".toList, "ram".toList, "ddr4".toList, "ddr5".toList,
   "processador".toList, "cpu".toList, "cooler".toList, "dissipador".toList,
   "heatsink".toList,
   "fonte".toList, "psu".toList, "gabinete".toList, "case".toList,
   "ventoinha".toList, "fan".toList,
   "placa de som".toList, "placa de rede".toList, "ssd nvme".toList,
   "ssd sata".toList, "ssd m2".toList, "m.2 ssd".toList]

def DEFAULT_FILTER_BLACKLIST : List Str :=
  ["notebook".toList, "laptop".toList, "monitor".toList, "smartphone".toList,
   "celular".toList, "impressora".toList,
   "televis".toList, "tv".toList, "geladeira".toList, "airfryer".toList,
   "console".toList, "cadeira".toList, "cadeirão".toList,
   "game".toList, "jogo".toList, "figurine".toList, "funko".toList,
   "roupa".toList, "sapato".toList, "tênis".toList, "tenis".toList,
   "power bank".toList, "powerbank".toList, "barra de proteina".toList,
   "proteina".toList, "suplemento".toList]

/-- The normalized combined text of `is_relevant_offer`:
`_normalize_text(" ".join(filter(None, [title or "", extra_text or "", url or ""])))`. -/
def relevantPlain (title extra_text url : Str) : Str :=
  _normalize_text (joinSpace (([title, extra_text, url]).filter (fun s => !s.isEmpty)))

/-- Embedding of `is_relevant_offer`, parameterised over the configured keyword/blacklist
lists (the source reads them from the environment with the above defaults).
Arguments are the already-`or ""`-coerced strings. -/
def is_relevant_offer (kws black : List Str) (title extra_text url : Str) : Bool :=
  let plain := relevantPlain title extra_text url
  if black.any (fun b => !b.isEmpty && pyIn b plain) then false
  else kws.any (fun kw =>
    let k := _normalize_text kw
    !k.isEmpty && pyIn k plain)

-- ----------------- Price / coupon parsing -----------------

/-- Character class `[\.\d{3}]` of `PRICE_RE` (inside a class, `{`, `3`, `}`
are literal characters). -/
def priceTailCh (c : Char) : Bool := isDigitCh c || c = '.' || c = '{' || c = '3' || c = '}'

/-- Character class `[\d\.\s,]` of the range / price-token regexes. -/
def rangeCh (c : Char) : Bool := isDigitCh c || c = '.' || isSpaceCh c || c = ','

def spanP (p : Char → Bool) (s : Str) : Str × Str := (s.takeWhile p, s.dropWhile p)

/-- Case-insensitive literal match at the head of a string; returns the
consumed characters (original case preserved) and the remainder. -/
def ciLit : Str → Str → Option (Str × Str)
  | [], s => some ([], s)
  | _ :: _, [] => none
  | p :: ps, c :: cs =>
    if lowerCh c = lowerCh p then
      match ciLit ps cs with
      | some (m, r) => some (c :: m, r)
      | none => none
    else none

/-- Pattern `PRICE_RE = R\$\s?\d{1,3}(?:[\.\d{3}])*(?:,\d{2})?` matched at the head of
`s`.  At a fixed position the pattern needs no backtracking: the optional
space must be followed by a digit, and the class `[\.\d{3}]` never contains
`,`, so greedy matching is exact. -/
def matchPriceAt : Str → Option Str
  | 'R' :: '$' :: rest =>
    let core : Str → Option Str := fun s =>
      match s with
      | c :: _ =>
        if isDigitCh c then
          let ds := (s.takeWhile isDigitCh).take 3
          let rest1 := s.drop ds.length
          let (cls, rest2) := spanP priceTailCh rest1
          match rest2 with
          | ',' :: d1 :: d2 :: _ =>
            if isDigitCh d1 && isDigitCh d2 then some (ds ++ cls ++ [',', d1, d2])
            else some (ds ++ cls)
          | _ => some (ds ++ cls)
        else none
      | [] => none
    match rest with
    | c :: t =>
      if isSpaceCh c then
        match core t with
        | some m => some ('R' :: '$' :: c :: m)
        | none => none
      else
        match core rest with
        | some m => some ('R' :: '$' :: m)
        | none => none
    | [] => none
  | _ => none

/-- Search `PRICE_RE.search`: leftmost match. -/
def priceSearch : Str → Option Str
  | [] => none
  | c :: t =>
    match matchPriceAt (c :: t) with
    | some m => some m
    | none => priceSearch t

/-- Embedding of `extract_price_from_text`. -/
def extract_price_from_text (text : Str) : Option Str :=
  if text.isEmpty then none
  else
    let txt := nbspFix text
    match priceSearch txt with
    | some m => some (pyStrip (nbspFix m))
    | none => none

/-- The continuation `\s*por\s*R\$\s?[\d\.\s,]+` of `PRICE_RANGE_RE` matched
at the head of `s` (case-insensitive).  Since the class `[\d\.\s,]` contains
the whitespace characters, the final `\s?[\d\.\s,]+` consumes exactly the
maximal run of class characters, which must be non-empty. -/
def matchPorTail (s : Str) : Option (Str × Str) :=
  let (sp1, r1) := spanP isSpaceCh s
  match ciLit "por".toList r1 with
  | some (mpor, r2) =>
    let (sp2, r3) := spanP isSpaceCh r2
    match r3 with
    | r :: '$' :: rest =>
      if r = 'R' || r = 'r' then
        let (cls, r4) := spanP rangeCh rest
        if cls.isEmpty then none
        else some (sp1 ++ mpor ++ sp2 ++ r :: '$' :: cls, r4)
      else none
    | _ => none
  | none => none

/-- The lazy `[\d\.\s,]+?` of `PRICE_RANGE_RE` followed by its continuation:
class characters are consumed one at a time (shortest first, Python's lazy
priority), attempting the continuation after each one. -/
def lazyClassPor : Str → Str → Option (Str × Str)
  | _, [] => none
  | acc, c :: t =>
    if rangeCh c then
      match matchPorTail t with
      | some (m, r) => some (acc ++ c :: m, r)
      | none => lazyClassPor (acc ++ [c]) t
    else none

/-- Fragment `\s?[\d\.\s,]+?\s*por...` after the first `R$` of the range pattern.  The
optional space is preferred when present (Python tries the space-consuming
alternative first); on total failure the space itself is consumed by the
class as the shortest remaining alternative. -/
def lazyStart (rest : Str) : Option (Str × Str) :=
  match rest with
  | c :: t =>
    if isSpaceCh c then
      match lazyClassPor [c] t with
      | some res => some res
      | none =>
        match matchPorTail t with
        | some (m, r) => some (c :: m, r)
        | none => none
    else lazyClassPor [] rest
  | [] => none

/-- Pattern `PRICE_RANGE_RE = de\s*R\$\s?[\d\.\s,]+?\s*por\s*R\$\s?[\d\.\s,]+`
(IGNORECASE) matched at the head of `s`; returns (match, remainder). -/
def matchRangeAt (s : Str) : Option (Str × Str) :=
  match ciLit "de".toList s with
  | some (mde, r1) =>
    let (sp, r2) := spanP isSpaceCh r1
    match r2 with
    | r :: '$' :: rest =>
      if r = 'R' || r = 'r' then
        match lazyStart rest with
        | some (m, rr) => some (mde ++ sp ++ r :: '$' :: m, rr)
        | none => none
      else none
    | _ => none
  | none => none

/-- Search `PRICE_RANGE_RE.search`: leftmost match. -/
def rangeSearch : Str → Option Str
  | [] => none
  | c :: t =>
    match matchRangeAt (c :: t) with
    | some (m, _) => some m
    | none => rangeSearch t

/-- Embedding of `extract_price_range`: the "de R$ X por R$ Y" range pattern is tried
first; on failure the parser falls back to the single-price pattern. -/
def extract_price_range (text : Str) : Option Str :=
  if text.isEmpty then none
  else
    let txt := nbspFix text
    match rangeSearch txt with
    | some pr => some (pyStrip (joinSpace (pySplit pr)))
    | none => extract_price_from_text txt

-- ----------------- Coupon detection -----------------

/-- Token class `[A-Z0-9\-]` of `COUPON_RE`; under IGNORECASE the class also
matches lowercase letters. -/
def couponTokCh (c : Char) : Bool :=
  ('A' ≤ c && c ≤ 'Z') || ('a' ≤ c && c ≤ 'z') || isDigitCh c || c = '-'

def couponSepCh (c : Char) : Bool := c = ':' || isSpaceCh c

def COUPON_WORDS : List Str :=
  ["cupom".toList, "código".toList, "codigo".toList, "code".toList, "coupon".toList]

/-- Pattern `COUPON_RE = (?:cupom|código|codigo|code|coupon)[:\s]*([A-Z0-9\-]{4,16})`
(IGNORECASE) matched at the head of `s`; returns group 1.  The keyword
alternatives are pairwise incompatible at a given position, and the separator
and token classes are disjoint, so greedy matching is exact; the counted
repetition takes at most 16 characters and requires at least 4. -/
def matchCouponAt (s : Str) : Option Str :=
  match COUPON_WORDS.findSome? (fun w => ciLit w s) with
  | some (_, r1) =>
    let r2 := r1.dropWhile couponSepCh
    let run := r2.takeWhile couponTokCh
    if run.length < 4 then none else some (run.take 16)
  | none => none

/-- Search `COUPON_RE.search`. -/
def couponSearch : Str → Option Str
  | [] => none
  | c :: t =>
    match matchCouponAt (c :: t) with
    | some g => some g
    | none => couponSearch t

def genCouponCh (c : Char) : Bool := ('A' ≤ c && c ≤ 'Z') || isDigitCh c

/-- Pattern `GENERIC_COUPON_RE = \b([A-Z0-9]{4,10})\b` search: a match starts at a
position preceded by a non-word character and is a maximal run of 4–10 class
characters followed by a non-word character or the end (a longer run can
never satisfy the trailing `\b`, as every class character is a word
character). -/
def genCouponAux : Bool → Str → Option Str
  | _, [] => none
  | pw, c :: t =>
    (if !pw && genCouponCh c then
      let run := (c :: t).takeWhile genCouponCh
      let after := (c :: t).dropWhile genCouponCh
      if 4 ≤ run.length && run.length ≤ 10 &&
         (match after with | [] => true | a :: _ => !isWordCh a) then
        some run
      else none
    else none).orElse (fun _ => genCouponAux (isWordCh c) t)

def upperCh (c : Char) : Char :=
  if 'a' ≤ c && c ≤ 'z' then Char.ofNat (c.toNat - 32) else c

def isAsciiAlpha (c : Char) : Bool := ('a' ≤ c && c ≤ 'z') || ('A' ≤ c && c ≤ 'Z')

/-- Embedding of `detect_coupon`: the labelled pattern is preferred; the generic fallback
is accepted only when its token contains a letter. -/
def detect_coupon (text : Str) : Option Str :=
  if text.isEmpty then none
  else
    let t := nbspFix text
    match couponSearch t with
    | some g => some ((pyStrip g).map upperCh)
    | none =>
      match genCouponAux false t with
      | some val =>
        let v := pyStrip val
        if v.any isAsciiAlpha then some (v.map upperCh) else none
      | none => none

-- ----------------- Generic titles and title resolution -----------------

/-- Alternatives of `GENERIC_TITLE_RE = \b(oferta|promo(ca|ç)ao|promo|black
friday|flash sale|ofertas|oferta)\b`, with the inner group expanded (the
pattern is applied to already-lowercased normalized text). -/
def GENERIC_TITLE_WORDS : List Str :=
  ["oferta".toList, "promocaao".toList, "promoçao".toList, "promo".toList,
   "black friday".toList, "flash sale".toList, "ofertas".toList, "oferta".toList]

def afterBoundaryOk (w s : Str) : Bool :=
  match s.drop w.length with
  | [] => true
  | a :: _ => !isWordCh a

/-- Search `GENERIC_TITLE_RE.search` as a truth value: some alternative occurs with a
word boundary on each side.  Every alternative starts with a word character,
so the leading `\b` holds exactly when the previous character is not a word
character (tracked by the boolean). -/
def genericSearchAux : Bool → Str → Bool
  | _, [] => false
  | pw, c :: t =>
    (!pw && GENERIC_TITLE_WORDS.any (fun w =>
        listStartsWith w (c :: t) && afterBoundaryOk w (c :: t))) ||
    genericSearchAux (isWordCh c) t

/-- Embedding of `looks_like_generic_title`. -/
def looks_like_generic_title (title : Option Str) : Bool :=
  match title with
  | none => true
  | some t0 =>
    if t0.isEmpty then true
    else
      let t := _normalize_text t0
      if t.length < 8 then true
      else genericSearchAux false t

/-- Embedding of `clean_text`. -/
def clean_text (t : Option Str) : Option Str :=
  match t with
  | none => none
  | some t0 =>
    if t0.isEmpty then none
    else
      let s := joinSpace (pySplit (nbspFix (htmlUnescape t0)))
      if (pyStrip s).isEmpty then none else some (pyStrip s)

/-- The inline generic-title replacement of the collectors (lines 405–410 of
the source): when the extracted title looks generic, the linked product page
is fetched — its outcome is the `fetched` argument, the result of
`fetch_product_title`, with `none` covering both fetch failure and no page
heuristic matching — and a truthy result replaces the title; otherwise the
original title is kept. -/
def resolve_title (title : Option Str) (fetched : Option Str) : Option Str :=
  if looks_like_generic_title title then
    match fetched with
    | some r => if r.isEmpty then title else some r
    | none => title
  else title

-- ----------------- Display-title cleaning -----------------

/-- Lookbehind class `[a-zà-ÿ]` of `_CAMEL_SPLIT_RE`. -/
def isLowerExt (c : Char) : Bool :=
  ('a' ≤ c && c ≤ 'z') || (decide (0xE0 ≤ c.toNat) && decide (c.toNat ≤ 0xFF))

def isUpperAZ (c : Char) : Bool := 'A' ≤ c && c ≤ 'Z'

/-- Letter class `[A-Za-zÀ-ÿ]` of `_LETTER_DIGIT_RE`. -/
def isLetterExt (c : Char) : Bool :=
  ('a' ≤ c && c ≤ 'z') || ('A' ≤ c && c ≤ 'Z') ||
  (decide (0xC0 ≤ c.toNat) && decide (c.toNat ≤ 0xFF))

/-- Substitution `_PCT_NO_SPACE_RE.sub("% ", t)`: insert a space after `%` when a
non-whitespace character follows. -/
def pctFix : Str → Str
  | [] => []
  | '%' :: c :: t => if isSpaceCh c then '%' :: pctFix (c :: t) else '%' :: ' ' :: pctFix (c :: t)
  | c :: t => c :: pctFix t

/-- Substitution `_CAMEL_SPLIT_RE.sub(" ", t)`: insert a space at every lower-to-upper
boundary (a zero-width match; one insertion per boundary). -/
def camelFix : Str → Str
  | a :: b :: t =>
    if isLowerExt a && isUpperAZ b then a :: ' ' :: camelFix (b :: t)
    else a :: camelFix (b :: t)
  | s => s

/-- Substitution `_LETTER_DIGIT_RE.sub(" ", t)`: insert a space at every letter–digit or
digit–letter boundary. -/
def letterDigitFix : Str → Str
  | a :: b :: t =>
    if (isLetterExt a && isDigitCh b) || (isDigitCh a && isLetterExt b) then
      a :: ' ' :: letterDigitFix (b :: t)
    else a :: letterDigitFix (b :: t)
  | s => s

/-- Substitution `re.sub(r"\bDe:\s*", "", t, flags=IGNORECASE)`; the boolean tracks
whether the character before the scan position is a word character (for the
`\b`). -/
def deColonAux : Nat → Bool → Str → Str
  | 0, _, s => s
  | _ + 1, _, [] => []
  | f + 1, pw, c :: rest =>
    match rest with
    | e :: ':' :: t =>
      if !pw && (c = 'D' || c = 'd') && (e = 'E' || e = 'e') then
        deColonAux f false (t.dropWhile isSpaceCh)
      else c :: deColonAux f (isWordCh c) rest
    | _ => c :: deColonAux f (isWordCh c) rest

def deColonSub (s : Str) : Str := deColonAux s.length false s

/-- Single-price alternative `R\$\s?[\d\.\s,]+` of `_PRICE_TOKENS_RE`
(IGNORECASE); greedy matching of the class run is exact because the class
contains the whitespace characters. -/
def matchSingleTokAt : Str → Option (Str × Str)
  | r :: '$' :: rest =>
    if r = 'R' || r = 'r' then
      let (cls, r4) := spanP rangeCh rest
      if cls.isEmpty then none else some (r :: '$' :: cls, r4)
    else none
  | _ => none

/-- Substitution `_PRICE_TOKENS_RE.sub("", t)`: remove every price-range or single-price
token, the range alternative being tried first at each position (the
alternation order of the source regex). -/
def priceTokAux : Nat → Str → Str
  | 0, s => s
  | _ + 1, [] => []
  | f + 1, c :: t =>
    match matchRangeAt (c :: t) with
    | some (_, r) => priceTokAux f r
    | none =>
      match matchSingleTokAt (c :: t) with
      | some (_, r) => priceTokAux f r
      | none => c :: priceTokAux f t

def priceTokSub (s : Str) : Str := priceTokAux s.length s

/-- Embedding of `clean_title_for_display`.  The `price_text` parameter is accepted and,
as in the source, never used. -/
def clean_title_for_display (raw_title : Option Str) (price_text : Option Str) : Str :=
  let t0 := pyStrip (raw_title.getD [])
  if t0.isEmpty then "Oferta".toList
  else
    let t1 := htmlUnescape t0
    let t2 := nbspFix t1
    let t3 := t2.map (fun c => if c = '\r' || c = '\n' then ' ' else c)
    let t4 := joinSpace (pySplit t3)
    let t5 := letterDigitFix (camelFix (pctFix t4))
    let t6 := priceTokSub (deColonSub t5)
    let t7 := pyStrip (joinSpace (pySplit t6))
    let t8 := stripSet " -–—:;/".toList t7
    if t8.isEmpty then
      match raw_title with
      | some r => if r.isEmpty then "Oferta".toList else r
      | none => "Oferta".toList
    else t8

-- ----------------- Affiliate rewriting -----------------

/-- Affiliate configuration from the environment (`AFF_AMAZON_TAG`,
`AFF_KABUM`, `AFF_PICHAU`); `none` models an unset variable, and the
truthiness test of the source also rejects an empty string. -/
structure AffConfig where
  amazonTag : Option Str
  kabum : Option Str
  pichau : Option Str

def truthyOpt : Option Str → Bool
  | none => false
  | some s => !s.isEmpty

def optVal : Option Str → Str
  | none => []
  | some s => s

def amazonDomain : Str := "amazon.com.br".toList
def kabumDomain : Str := "kabum.com.br".toList
def pichauDomain : Str := "pichau.com.br".toList
def tagMark : Str := "tag=".toList
def affMark : Str := "aff".toList

/-- Appending of the parameter: link, then the separator (an ampersand when the
link already contains a question mark, else a question mark), then key and
value. -/
def addParam (link key val : Str) : Str :=
  link ++ (if pyIn ['?'] link then '&' :: (key ++ val) else '?' :: (key ++ val))

/-- Embedding of `apply_affiliate`: each branch keys on a domain substring of the link and
appends its configured parameter only when the marker (`tag=` resp. `aff`) is
not already a substring; a branch whose marker is present falls through to
the next retailer's test. -/
def apply_affiliate (cfg : AffConfig) (link : Str) (shop : Option Str) : Str :=
  if link.isEmpty || !truthyOpt shop then link
  else if pyIn amazonDomain link && truthyOpt cfg.amazonTag && !pyIn tagMark link then
    addParam link tagMark (optVal cfg.amazonTag)
  else if pyIn kabumDomain link && truthyOpt cfg.kabum && !pyIn affMark link then
    addParam link "aff=".toList (optVal cfg.kabum)
  else if pyIn pichauDomain link && truthyOpt cfg.pichau && !pyIn affMark link then
    addParam link "aff=".toList (optVal cfg.pichau)
  else link

-- ----------------- Offer repository (SQLite `offers` table) -----------------

/-- A row of the `offers` table. -/
structure OfferRow where
  id : Nat
  source : Str
  title : Str
  url : Str
  price : Option Str
  shop : Option Str
  image_url : Option Str
  coupon : Option Str
  posted : Nat
  hash : Str
deriving DecidableEq

/-- The URL digest used for the secondary uniqueness constraint.  The SHA-256
of the source is modelled by an injective stand-in (the URL itself), which is
collision-free as the digest is intended to be. -/
def urlHash (url : Str) : Str := url

structure DB where
  nextId : Nat
  rows : List OfferRow
deriving DecidableEq

/-- State after `init_db` on a fresh database file. -/
def emptyDB : DB := ⟨1, []⟩

/-- The INSERT of `insert_offer` raises `IntegrityError` exactly when a
UNIQUE constraint on `url` or `hash` is violated. -/
def hasConflict (db : DB) (url : Str) : Bool :=
  db.rows.any (fun r => r.url == url || r.hash == urlHash url)

/-- The row written by a successful INSERT: `posted` takes its column
default 0, `id` the AUTOINCREMENT value. -/
def insertedRow (db : DB) (source title url : Str)
    (price shop image_url coupon : Option Str) : OfferRow :=
  ⟨db.nextId, source, title, url, price, shop, image_url, coupon, 0, urlHash url⟩

/-- Embedding of `insert_offer` (the normal, fault-free run): `false` for an empty URL and
on a uniqueness violation (the caught `IntegrityError`), `true` with the new
row appended otherwise. -/
def insert_offer (db : DB) (source title url : Str)
    (price shop image_url coupon : Option Str) : DB × Bool :=
  if url.isEmpty then (db, false)
  else if hasConflict db url then (db, false)
  else
    (⟨db.nextId + 1, db.rows ++ [insertedRow db source title url price shop image_url coupon]⟩,
     true)

inductive DBErr where
  | integrity
  | operational
deriving DecidableEq

/-- Embedding of `insert_offer` with the persistence layer's failure behaviour explicit:
`fault` injects a non-integrity persistence error (a locked or unwritable
database, say) at the INSERT.  The source's `except sqlite3.IntegrityError`
turns only uniqueness violations into `False`; any other error propagates to
the caller. -/
def insert_offer_run (db : DB) (source title url : Str)
    (price shop image_url coupon : Option Str) (fault : Bool) :
    Except DBErr (DB × Bool) :=
  if url.isEmpty then .ok (db, false)
  else if fault then .error .operational
  else .ok (insert_offer db source title url price shop image_url coupon)

/-- Embedding of `mark_as_posted`. -/
def mark_as_posted (db : DB) (offer_id : Nat) : DB :=
  ⟨db.nextId, db.rows.map (fun r => if r.id = offer_id then { r with posted := 1 } else r)⟩

/-- Embedding of `stats_counts`: total, posted (`posted = 1`), unposted (`posted = 0`). -/
def stats_counts (db : DB) : Nat × Nat × Nat :=
  (db.rows.length,
   (db.rows.filter (fun r => r.posted == 1)).length,
   (db.rows.filter (fun r => r.posted == 0)).length)

/-- The repository states reachable through the program's own operations: a
fresh `init_db` database, fault-free `insert_offer` calls, and
`mark_as_posted`. -/
inductive Reachable : DB → Prop
  | init : Reachable emptyDB
  | insert (db : DB) (source title url : Str) (price shop image_url coupon : Option Str) :
      Reachable db → Reachable (insert_offer db source title url price shop image_url coupon).1
  | mark (db : DB) (offer_id : Nat) : Reachable db → Reachable (mark_as_posted db offer_id)

-- ----------------- Collector pipeline (one candidate at a time) -----------------

/-- One candidate block of `collect_kabum` / `collect_pichau`, as delivered
by the candidate locator and `find_link_title_image` (markup traversal is
done by BeautifulSoup in the source; a block is modelled by its extraction
results).  `blockText` is `block.get_text(" ", strip=True)`. -/
structure Candidate where
  title : Option Str
  link : Option Str
  image : Option Str
  blockText : Str

/-- Result of processing one candidate. -/
structure StepResult where
  db : DB
  seen : List Str
  inserted : Bool

/-- Python `link.split("/")[-1]`. -/
def lastSeg (s : Str) : Str := (s.reverse.takeWhile (fun c => !(c = '/'))).reverse

/-- The URL-derived fallback title of line 419:
`clean_text(link.split("/")[-1].replace("-", " ").replace(".html", ""))`. -/
def urlFallbackTitle (link : Str) : Option Str :=
  clean_text (some (pyReplace (pyReplace (lastSeg link) "-".toList " ".toList) ".html".toList []))

/-- The title actually passed on by the kabum/pichau step: the resolved title
when truthy, else the URL-derived fallback (lines 418–419). -/
def kabumTitle (c : Candidate) (fetched : Option Str) (link : Str) : Option Str :=
  match resolve_title c.title fetched with
  | some t => if t.isEmpty then urlFallbackTitle link else some t
  | none => urlFallbackTitle link

/-- Lines 401–425 of `collect_kabum` for a single candidate block: a generic
title is resolved against the fetched product page, the link is de-duplicated
against `seen`, price and coupon are extracted from the block text, a fallback
title is derived from the URL, and the offer is inserted iff
`is_relevant_offer` accepts it — no other predicate is consulted.
(`collect_pichau` is the same code with the labels `pichau` / `Pichau`.) -/
def kabumStep (kws black : List Str) (db : DB) (seen : List Str)
    (c : Candidate) (fetched : Option Str) : StepResult :=
  match c.link with
  | none => ⟨db, seen, false⟩
  | some link =>
    if seen.contains link then ⟨db, seen, false⟩
    else
      let seen' := link :: seen
      let price0 := extract_price_from_text c.blockText
      let coupon := detect_coupon c.blockText
      let price := price0.map (fun p => pyStrip (pyReplace p "R$".toList "R$ ".toList))
      let title2 := kabumTitle c fetched link
      if is_relevant_offer kws black (optVal title2) c.blockText link then
        let tIns := match title2 with
          | some t => if t.isEmpty then "Oferta Kabum".toList else t
          | none => "Oferta Kabum".toList
        let ins := insert_offer db "kabum".toList tIns link price (some "KaBuM".toList) c.image coupon
        ⟨ins.1, seen', ins.2⟩
      else ⟨db, seen', false⟩

/-- One candidate of `collect_amazon` (lines 498–524): an anchor whose href
contains `/dp/` or `/gp/product/` inside a price-bearing ancestor block.
`link` is the absolutized `urljoin(page, href)`; `anchorTitle` is
`a.get_text(strip=True) or (img alt) or None` (a falsy chain, so `none` also
covers the empty string). -/
structure AmazonCandidate where
  link : Str
  anchorTitle : Option Str
  image : Option Str
  blockText : Str

/-- Note: `collect_amazon` never adds to its `seen` set (the set stays empty in the
source); the insert additionally requires a truthy price:
`if price and insert_offer(...)`. -/
def amazonStep (kws black : List Str) (db : DB) (seen : List Str)
    (c : AmazonCandidate) (fetched : Option Str) : StepResult :=
  if seen.contains c.link then ⟨db, seen, false⟩
  else
    let title0 := clean_text c.anchorTitle
    let title1 := resolve_title title0 fetched
    let price0 := extract_price_from_text c.blockText
    let coupon := detect_coupon c.blockText
    let price := price0.map (fun p => pyStrip (pyReplace p "R$".toList "R$ ".toList))
    if is_relevant_offer kws black (optVal title1) c.blockText c.link then
      match price with
      | some p =>
        if p.isEmpty then ⟨db, seen, false⟩
        else
          let tIns := match title1 with
            | some t => if t.isEmpty then "Oferta Amazon".toList else t
            | none => "Oferta Amazon".toList
          let ins := insert_offer db "amazon".toList tIns c.link (some p) (some "Amazon".toList) c.image coupon
          ⟨ins.1, seen, ins.2⟩
      | none => ⟨db, seen, false⟩
    else ⟨db, seen, false⟩

-- ----------------- Spec-modelled promotional predicate -----------------

/-- Modelled from the spec: a percentage pattern — a digit immediately
followed by `%` (part of the Promotional predicate of §4.4, which has no
counterpart in the source). -/
def hasPercent : Str → Bool
  | a :: b :: t => (isDigitCh a && b = '%') || hasPercent (b :: t)
  | _ => false

/-- Modelled from the spec: the fixed promotional vocabulary of §4.4
("discount", "deal", "% off", "black friday", etc.), extended with the
Portuguese promotional words the spec's other sections mention. -/
def PROMO_VOCAB : List Str :=
  ["discount".toList, "deal".toList, "% off".toList, "black friday".toList,
   "desconto".toList, "oferta".toList, "promo".toList, "cupom".toList]

/-- Modelled from the spec: the Promotional predicate of §4.4 — "accept if
the normalized text contains a percentage pattern, OR a 'from X to Y'
price-range pattern, OR any term from a fixed promotional vocabulary".  The
source has no such predicate anywhere. -/
def promo_signal (plain : Str) : Bool :=
  hasPercent plain || (rangeSearch plain).isSome || PROMO_VOCAB.any (fun w => pyIn w plain)

-- ----------------- Substring lemmas -----------------

lemma listStartsWith_append (n m : Str) : listStartsWith n (n ++ m) = true := by
  induction n with
  | nil => rfl
  | cons a t ih => simp [listStartsWith, ih]

lemma listStartsWith_extend (n : Str) (s m : Str) (h : listStartsWith n s = true) :
    listStartsWith n (s ++ m) = true := by
  induction n generalizing s with
  | nil => rfl
  | cons a t ih =>
    cases s with
    | nil => simp [listStartsWith] at h
    | cons b bs =>
      simp only [listStartsWith, Bool.and_eq_true, beq_iff_eq] at h ⊢
      exact ⟨h.1, ih bs h.2⟩

lemma pyIn_of_startsWith (n s : Str) (h : listStartsWith n s = true) : pyIn n s = true := by
  cases s with
  | nil => simpa [pyIn] using h
  | cons c t => simp [pyIn, h]

lemma pyIn_cons_of (n : Str) (c : Char) (t : Str) (h : pyIn n t = true) : pyIn n (c :: t) = true := by
  simp [pyIn, h]

lemma pyIn_append_right (n xs ys : Str) (h : pyIn n ys = true) : pyIn n (xs ++ ys) = true := by
  induction xs with
  | nil => simpa using h
  | cons a t ih => exact pyIn_cons_of n a (t ++ ys) ih

lemma pyIn_append_left (n xs ys : Str) (h : pyIn n xs = true) : pyIn n (xs ++ ys) = true := by
  induction xs with
  | nil =>
    have hn : n = [] := by
      cases n with
      | nil => rfl
      | cons a t => simp [pyIn, listStartsWith] at h
    subst hn
    cases ys <;> simp [pyIn, listStartsWith]
  | cons a t ih =>
    rw [List.cons_append]
    rw [pyIn] at h
    rcases Bool.or_eq_true_iff.mp h with h1 | h2
    · exact pyIn_of_startsWith n _ (listStartsWith_extend n (a :: t) ys h1)
    · exact pyIn_cons_of n a (t ++ ys) (ih h2)

lemma startsWith_append_cons (n : Str) (xs zs : Str) (c : Char) (hc : c ∉ n)
    (h : listStartsWith n (xs ++ c :: zs) = true) : listStartsWith n xs = true := by
  induction n generalizing xs with
  | nil => rfl
  | cons a t ih =>
    cases xs with
    | nil =>
      simp only [List.nil_append, listStartsWith, Bool.and_eq_true, beq_iff_eq] at h
      exact absurd (h.1 ▸ List.mem_cons_self a t) hc
    | cons b bs =>
      simp only [List.cons_append, listStartsWith, Bool.and_eq_true, beq_iff_eq] at h ⊢
      exact ⟨h.1, ih bs (fun hm => hc (List.mem_cons_of_mem a hm)) h.2⟩

lemma pyIn_append_cons (n xs zs : Str) (c : Char) (hc : c ∉ n) (hn : n ≠ [])
    (h : pyIn n (xs ++ c :: zs) = true) : pyIn n xs = true ∨ pyIn n zs = true := by
  induction xs with
  | nil =>
    rw [List.nil_append, pyIn] at h
    rcases Bool.or_eq_true_iff.mp h with h1 | h2
    · exfalso
      cases n with
      | nil => exact hn rfl
      | cons a t =>
        simp only [listStartsWith, Bool.and_eq_true, beq_iff_eq] at h1
        exact hc (h1.1 ▸ List.mem_cons_self a t)
    · exact Or.inr h2
  | cons x xt ih =>
    rw [List.cons_append, pyIn] at h
    rcases Bool.or_eq_true_iff.mp h with h1 | h2
    · exact Or.inl (pyIn_of_startsWith n _ (startsWith_append_cons n (x :: xt) zs c hc h1))
    · rcases ih h2 with ha | hb
      · exact Or.inl (pyIn_cons_of n x xt ha)
      · exact Or.inr hb

lemma pyIn_append_cons_false (n xs zs : Str) (c : Char) (hc : c ∉ n) (hn : n ≠ [])
    (h1 : pyIn n xs = false) (h2 : pyIn n zs = false) : pyIn n (xs ++ c :: zs) = false := by
  by_contra hcon
  have htrue : pyIn n (xs ++ c :: zs) = true := by
    revert hcon; cases pyIn n (xs ++ c :: zs) <;> simp
  rcases pyIn_append_cons n xs zs c hc hn htrue with h | h <;> simp_all

-- ----------------- Claim C3 -----------------

/-- C3: for every input (title, extra text, URL) whose normalized
concatenation contains a (non-empty) blacklist term, `is_relevant_offer`
returns `false` regardless of the keyword list: the blacklist loop runs
before the allowlist loop and returns immediately, so blacklist takes
precedence over allowlist. -/
theorem C3_blacklist_precedence (kws black : List Str) (title extra_text url : Str)
    (b : Str) (hb : b ∈ black) (hbne : b ≠ [])
    (hin : pyIn b (relevantPlain title extra_text url) = true) :
    is_relevant_offer kws black title extra_text url = false := by
  have hbe : b.isEmpty = false := by
    cases b with
    | nil => exact absurd rfl hbne
    | cons a t => rfl
  have hany : (black.any (fun x => !x.isEmpty && pyIn x (relevantPlain title extra_text url))) = true :=
    List.any_eq_true.mpr ⟨b, hb, by simp [hbe, hin]⟩
  simp [is_relevant_offer, hany]

/-- Witness for C3 at a concrete input: a listing matching both the
blacklist term "notebook" and the allowlist term "rtx" is rejected. -/
theorem C3_blacklist_precedence_witness :
    is_relevant_offer DEFAULT_FILTER_KEYWORDS DEFAULT_FILTER_BLACKLIST
      "Notebook Gamer RTX 4060".toList "Notebook Gamer RTX 4060".toList
      "https://ex.com/x".toList = false :=
  C3_blacklist_precedence DEFAULT_FILTER_KEYWORDS DEFAULT_FILTER_BLACKLIST
    "Notebook Gamer RTX 4060".toList "Notebook Gamer RTX 4060".toList
    "https://ex.com/x".toList "notebook".toList (by decide) (by decide) (by decide)

-- ----------------- Claim C6 -----------------

/-- C6: the title resolver replaces a title only when
`looks_like_generic_title` holds (absent, shorter than 8 normalized
characters, or matching the promotional/placeholder vocabulary): a
non-generic title is kept unchanged whatever the secondary fetch returns;
and for EVERY title — generic ones included, the only ones for which the
source performs the fetch at all — when the fetch fails or yields nothing
(`fetched = none`) the original title is kept, so the offer is not
discarded. -/
theorem C6_resolve_title_generic_only (title fetched : Option Str) :
    (looks_like_generic_title title = false → resolve_title title fetched = title) ∧
    resolve_title title none = title := by
  constructor
  · intro h
    simp [resolve_title, h]
  · unfold resolve_title
    split <;> rfl

/-- Witness for C6 at concrete inputs: the non-generic title
"Placa de Vídeo RTX 4060" survives a successful fetch unchanged, and the
generic title "Oferta" is kept when the fetch fails. -/
theorem C6_resolve_title_generic_only_witness :
    resolve_title (some "Placa de Vídeo RTX 4060".toList) (some "Outra Coisa".toList)
      = some "Placa de Vídeo RTX 4060".toList ∧
    resolve_title (some "Oferta".toList) none = some "Oferta".toList :=
  ⟨(C6_resolve_title_generic_only (some "Placa de Vídeo RTX 4060".toList)
      (some "Outra Coisa".toList)).1 (by decide),
   (C6_resolve_title_generic_only (some "Oferta".toList) none).2⟩

-- ----------------- Claim C4 -----------------

def C4row : OfferRow :=
  ⟨1, "kabum".toList, "T".toList, "u".toList, none, none, none, none, 0, "u".toList⟩

/-- C4 counterexample: on a repository state that already contains the URL,
the FIRST insert call already returns `false`, contradicting the claim's
"for every non-empty URL and every repository state … the first call returns
true (newly inserted)". -/
theorem C4_counterexample :
    ("u".toList ≠ ([] : Str)) ∧
    (insert_offer ⟨2, [C4row]⟩ "kabum".toList "T".toList "u".toList none none none none).2
      = false := by
  exact ⟨by decide, by rfl⟩

/-- C4 (amended): for every non-empty URL and every repository state in which
neither the URL nor its digest is yet present, inserting the same offer twice
returns `true` then `false`, the duplicate insert is a no-op on the state (the
uniqueness violation of the INSERT is turned into `false`, not an error), and
exactly one record with that URL remains. -/
theorem C4_insert_idempotent (db : DB) (source title url : Str)
    (price shop image_url coupon : Option Str)
    (hne : url ≠ [])
    (hfresh : ∀ r ∈ db.rows, r.url ≠ url ∧ r.hash ≠ urlHash url) :
    (insert_offer db source title url price shop image_url coupon).2 = true ∧
    (insert_offer (insert_offer db source title url price shop image_url coupon).1
        source title url price shop image_url coupon).2 = false ∧
    (insert_offer (insert_offer db source title url price shop image_url coupon).1
        source title url price shop image_url coupon).1
      = (insert_offer db source title url price shop image_url coupon).1 ∧
    (((insert_offer db source title url price shop image_url coupon).1).rows.filter
        (fun r => r.url == url)).length = 1 := by
  have hne' : url.isEmpty = false := by
    cases url with
    | nil => exact absurd rfl hne
    | cons a t => rfl
  have hconf : hasConflict db url = false := by
    simp only [hasConflict, List.any_eq_false]
    intro r hr
    simp [(hfresh r hr).1, (hfresh r hr).2]
  have h1 : insert_offer db source title url price shop image_url coupon =
      (⟨db.nextId + 1, db.rows ++ [insertedRow db source title url price shop image_url coupon]⟩,
       true) := by
    simp [insert_offer, hne', hconf]
  have hconf2 :
      hasConflict ⟨db.nextId + 1,
        db.rows ++ [insertedRow db source title url price shop image_url coupon]⟩ url = true := by
    simp [hasConflict, List.any_append, insertedRow]
  have h2 : insert_offer
      (⟨db.nextId + 1, db.rows ++ [insertedRow db source title url price shop image_url coupon]⟩ : DB)
      source title url price shop image_url coupon =
      ((⟨db.nextId + 1, db.rows ++ [insertedRow db source title url price shop image_url coupon]⟩ : DB),
       false) := by
    simp [insert_offer, hne', hconf2]
  have hfilter : (db.rows.filter (fun r => r.url == url)) = [] := by
    rw [List.filter_eq_nil_iff]
    intro r hr
    simp [(hfresh r hr).1]
  refine ⟨by rw [h1], by rw [h1, h2], by rw [h1, h2], ?_⟩
  rw [h1]
  simp [List.filter_append, hfilter, insertedRow]

/-- Witness for C4 at a concrete input: a fresh URL on the empty repository. -/
theorem C4_insert_idempotent_witness :
    (insert_offer emptyDB "kabum".toList "T".toList "u".toList none none none none).2 = true ∧
    (insert_offer (insert_offer emptyDB "kabum".toList "T".toList "u".toList none none none none).1
        "kabum".toList "T".toList "u".toList none none none none).2 = false ∧
    (insert_offer (insert_offer emptyDB "kabum".toList "T".toList "u".toList none none none none).1
        "kabum".toList "T".toList "u".toList none none none none).1
      = (insert_offer emptyDB "kabum".toList "T".toList "u".toList none none none none).1 ∧
    (((insert_offer emptyDB "kabum".toList "T".toList "u".toList none none none none).1).rows.filter
        (fun r => r.url == "u".toList)).length = 1 :=
  C4_insert_idempotent emptyDB "kabum".toList "T".toList "u".toList none none none none
    (by decide) (by intro r hr; simp [emptyDB] at hr)

-- ----------------- Claim C5 -----------------

/-- C5 counterexample: a non-integrity persistence error during the INSERT is
not turned into "not inserted": `insert_offer` propagates it (the source
catches only `sqlite3.IntegrityError`), so the run produces an error and in
particular not the `(db, false)` the claim requires. -/
theorem C5_counterexample :
    insert_offer_run emptyDB "kabum".toList "T".toList "u".toList none none none none true
      = Except.error DBErr.operational ∧
    insert_offer_run emptyDB "kabum".toList "T".toList "u".toList none none none none true
      ≠ Except.ok (emptyDB, false) := by
  refine ⟨rfl, ?_⟩
  intro h
  rw [show insert_offer_run emptyDB "kabum".toList "T".toList "u".toList none none none none true
      = Except.error DBErr.operational from rfl] at h
  exact Except.noConfusion h

def C5row : OfferRow :=
  ⟨1, "kabum".toList, "T".toList, "v".toList, none, none, none, none, 0, "v".toList⟩

/-- C5 (amended): only uniqueness violations (`IntegrityError`) are treated
as "not inserted": on a duplicate URL the fault-free run returns
`ok (db, false)` with the state unchanged, while any other persistence error
propagates out of `insert_offer` as an exception instead of a `false` return. -/
theorem C5_integrity_only (db : DB) (source title url : Str)
    (price shop image_url coupon : Option Str)
    (hne : url ≠ []) (r : OfferRow) (hr : r ∈ db.rows) (hdup : r.url = url) :
    insert_offer_run db source title url price shop image_url coupon false
      = Except.ok (db, false) ∧
    insert_offer_run db source title url price shop image_url coupon true
      = Except.error DBErr.operational := by
  have hne' : url.isEmpty = false := by
    cases url with
    | nil => exact absurd rfl hne
    | cons a t => rfl
  have hconf : hasConflict db url = true :=
    List.any_eq_true.mpr ⟨r, hr, by simp [hdup]⟩
  constructor
  · simp [insert_offer_run, insert_offer, hne', hconf]
  · simp [insert_offer_run, hne']

/-- Witness for C5 at a concrete input: a repository already holding URL
`"v"`. -/
theorem C5_integrity_only_witness :
    insert_offer_run ⟨2, [C5row]⟩ "kabum".toList "T".toList "v".toList none none none none false
      = Except.ok (⟨2, [C5row]⟩, false) ∧
    insert_offer_run ⟨2, [C5row]⟩ "kabum".toList "T".toList "v".toList none none none none true
      = Except.error DBErr.operational :=
  C5_integrity_only ⟨2, [C5row]⟩ "kabum".toList "T".toList "v".toList none none none none
    (by decide) C5row (by simp) (by decide)

-- ----------------- Claim C10 -----------------

lemma posted_count_split (rows : List OfferRow)
    (h : ∀ r ∈ rows, r.posted = 0 ∨ r.posted = 1) :
    rows.length = (rows.filter (fun r => r.posted == 1)).length
      + (rows.filter (fun r => r.posted == 0)).length := by
  induction rows with
  | nil => rfl
  | cons a t ih =>
    have ha := h a (List.mem_cons_self a t)
    have ht : ∀ r ∈ t, r.posted = 0 ∨ r.posted = 1 :=
      fun r hr => h r (List.mem_cons_of_mem a hr)
    rcases ha with h0 | h1
    · have e1 : (a.posted == 1) = false := by simp [h0]
      have e0 : (a.posted == 0) = true := by simp [h0]
      simp only [List.filter_cons, e1, e0, if_false, if_true, List.length_cons,
        Bool.false_eq_true, ite_false, ite_true]
      rw [ih ht]
      omega
    · have e1 : (a.posted == 1) = true := by simp [h1]
      have e0 : (a.posted == 0) = false := by simp [h1]
      simp only [List.filter_cons, e1, e0, if_false, if_true, List.length_cons,
        Bool.false_eq_true, ite_false, ite_true]
      rw [ih ht]
      omega

/-- C10: in every repository state reachable through the program's own
operations (`init_db` with `posted` defaulting to 0, `insert_offer` which
never sets `posted`, and `mark_as_posted` which sets it to 1), every row's
`posted` column is 0 or 1, and therefore `stats_counts` satisfies
`total = posted + unposted`. -/
theorem C10_stats_partition (db : DB) (h : Reachable db) :
    (∀ r ∈ db.rows, r.posted = 0 ∨ r.posted = 1) ∧
    (stats_counts db).1 = (stats_counts db).2.1 + (stats_counts db).2.2 := by
  have hp : ∀ r ∈ db.rows, r.posted = 0 ∨ r.posted = 1 := by
    induction h with
    | init => intro r hr; simp [emptyDB] at hr
    | insert db0 source title url price shop image_url coupon hdb ih =>
      intro r hr
      simp only [insert_offer] at hr
      split at hr
      · exact ih r hr
      · split at hr
        · exact ih r hr
        · simp only [List.mem_append, List.mem_singleton] at hr
          rcases hr with hr | hr
          · exact ih r hr
          · subst hr; left; rfl
    | mark db0 offer_id hdb ih =>
      intro r hr
      simp only [mark_as_posted, List.mem_map] at hr
      obtain ⟨a, ha, rfl⟩ := hr
      by_cases hid : a.id = offer_id
      · simp [hid]
      · simpa [hid] using ih a ha
  exact ⟨hp, by simpa [stats_counts] using posted_count_split db.rows hp⟩

/-- Witness for C10 at a concrete reachable state: insert one offer into the
fresh database, then mark it posted. -/
theorem C10_stats_partition_witness :
    (∀ r ∈ (mark_as_posted (insert_offer emptyDB "kabum".toList "T".toList "u".toList
        none none none none).1 1).rows, r.posted = 0 ∨ r.posted = 1) ∧
    (stats_counts (mark_as_posted (insert_offer emptyDB "kabum".toList "T".toList "u".toList
        none none none none).1 1)).1
      = (stats_counts (mark_as_posted (insert_offer emptyDB "kabum".toList "T".toList "u".toList
        none none none none).1 1)).2.1
      + (stats_counts (mark_as_posted (insert_offer emptyDB "kabum".toList "T".toList "u".toList
        none none none none).1 1)).2.2 :=
  C10_stats_partition _
    (Reachable.mark _ 1
      (Reachable.insert emptyDB "kabum".toList "T".toList "u".toList none none none none
        Reachable.init))

-- ----------------- Claim C1 -----------------

def C1cand : Candidate :=
  ⟨some "Placa de Vídeo RTX 4060".toList, some "https://www.kabum.com.br/produto/123".toList,
   none, "Placa de Vídeo RTX 4060 R$ 499,00".toList⟩

/-- C1 counterexample: a candidate with a valid price and relevant text but
with NO promotional signal (no percentage, no "from X to Y" range, no
promotional-vocabulary term) is nevertheless persisted by the kabum discovery
step — the claimed AND of relevance and a promotional predicate does not
exist in the code. -/
theorem C1_counterexample :
    promo_signal (relevantPlain (optVal C1cand.title) C1cand.blockText (optVal C1cand.link)) = false ∧
    is_relevant_offer DEFAULT_FILTER_KEYWORDS DEFAULT_FILTER_BLACKLIST
      (optVal C1cand.title) C1cand.blockText (optVal C1cand.link) = true ∧
    extract_price_from_text C1cand.blockText = some "R$ 499,00".toList ∧
    (kabumStep DEFAULT_FILTER_KEYWORDS DEFAULT_FILTER_BLACKLIST emptyDB [] C1cand none).inserted
      = true := by
  refine ⟨by decide, by decide, by decide, by decide⟩

/-- C1 (amended): at insertion time the kabum/pichau discovery step consults
the relevance predicate alone — the source has no promotional predicate, so
nothing is ANDed with relevance.  Every candidate with a link that is not yet
seen, whose URL is free in the repository, and whose title/text/link pass
`is_relevant_offer`, is persisted, whether or not any promotional signal is
present in its text. -/
theorem C1_relevance_only_gate (kws black : List Str) (db : DB) (seen : List Str)
    (c : Candidate) (fetched : Option Str) (link : Str)
    (hlink : c.link = some link) (hne : link ≠ [])
    (hseen : seen.contains link = false)
    (hfree : hasConflict db link = false)
    (hrel : is_relevant_offer kws black (optVal (kabumTitle c fetched link)) c.blockText link
      = true) :
    (kabumStep kws black db seen c fetched).inserted = true := by
  have hne' : link.isEmpty = false := by
    cases link with
    | nil => exact absurd rfl hne
    | cons a t => rfl
  unfold kabumStep
  rw [hlink]
  simp only [hseen, Bool.false_eq_true, if_false, ite_false, hrel, if_true, ite_true]
  simp [insert_offer, hne', hfree]

/-- Witness for C1 (amended) at a concrete input: the counterexample
candidate itself, which carries no promotional signal. -/
theorem C1_relevance_only_gate_witness :
    (kabumStep DEFAULT_FILTER_KEYWORDS DEFAULT_FILTER_BLACKLIST emptyDB [] C1cand none).inserted
      = true :=
  C1_relevance_only_gate DEFAULT_FILTER_KEYWORDS DEFAULT_FILTER_BLACKLIST emptyDB [] C1cand none
    "https://www.kabum.com.br/produto/123".toList rfl (by decide) rfl rfl (by decide)

-- ----------------- Claim C2 -----------------

def C2cand : Candidate :=
  ⟨some "SSD NVMe 1TB".toList, some "https://www.kabum.com.br/produto/987".toList, none,
   "SSD NVMe 1TB parcelado".toList⟩

/-- C2 counterexample: the kabum collector inserts an offer whose block text
contains no price at all — price extraction yields `none` and the persisted
row's `price` field is absent, contradicting "an offer is never inserted into
the repository when price extraction on the block text yields no match". -/
theorem C2_counterexample :
    extract_price_from_text C2cand.blockText = none ∧
    (kabumStep DEFAULT_FILTER_KEYWORDS DEFAULT_FILTER_BLACKLIST emptyDB [] C2cand none).inserted
      = true ∧
    (kabumStep DEFAULT_FILTER_KEYWORDS DEFAULT_FILTER_BLACKLIST emptyDB [] C2cand none).db.rows.map
      (fun r => r.price) = [none] := by
  refine ⟨by decide, by decide, by decide⟩

/-- C2 (amended): only the Amazon collector guards insertion on a present
price (`if price and insert_offer(...)`): whenever the amazon step inserts,
price extraction on the block text succeeded.  The kabum/pichau steps insert
even when extraction fails. -/
theorem C2_amazon_price_guard (kws black : List Str) (db : DB) (seen : List Str)
    (c : AmazonCandidate) (fetched : Option Str)
    (h : (amazonStep kws black db seen c fetched).inserted = true) :
    ∃ p, extract_price_from_text c.blockText = some p := by
  cases hp : extract_price_from_text c.blockText with
  | some p => exact ⟨p, rfl⟩
  | none =>
    exfalso
    simp only [amazonStep, hp, Option.map_none'] at h
    split at h
    · simp at h
    · split at h
      · simp at h
      · simp at h

def C2amz : AmazonCandidate :=
  ⟨"https://www.amazon.com.br/dp/B0C1".toList, some "Placa de Vídeo RTX 4060".toList, none,
   "Placa de Vídeo RTX 4060 R$ 499,00".toList⟩

/-- Witness for C2 (amended) at a concrete input: an amazon candidate with a
price in its block text that the step does insert. -/
theorem C2_amazon_price_guard_witness :
    ∃ p, extract_price_from_text C2amz.blockText = some p :=
  C2_amazon_price_guard DEFAULT_FILTER_KEYWORDS DEFAULT_FILTER_BLACKLIST emptyDB [] C2amz none
    (by decide)

-- ----------------- Claim C7 -----------------

lemma nbspFix_idem (s : Str) : nbspFix (nbspFix s) = nbspFix s := by
  induction s with
  | nil => rfl
  | cons c t ih =>
    simp only [nbspFix, List.map_cons] at ih ⊢
    by_cases hc : c.toNat = 0xA0
    · simp [hc, ih]
    · simp [hc, ih]

/-- C7: the price parser checks the "de R$ X por R$ Y" range pattern first
and falls back to a single currency amount only when no range matches; on
`"de R$ 100,00 por R$ 80,00"` it returns a range string preserving both
amounts, on `"R$ 1.234,56"` the single normalized amount, and on text where
neither pattern matches it returns `none` — an absent value, not an empty
string. -/
theorem C7_price_parsing :
    extract_price_range "de R$ 100,00 por R$ 80,00".toList
      = some "de R$ 100,00 por R$ 80,00".toList ∧
    extract_price_range "R$ 1.234,56".toList = some "R$ 1.234,56".toList ∧
    (∀ text : Str, rangeSearch (nbspFix text) = none →
      extract_price_range text = extract_price_from_text (nbspFix text)) ∧
    (∀ text : Str, rangeSearch (nbspFix text) = none → priceSearch (nbspFix text) = none →
      extract_price_range text = none) := by
  refine ⟨by decide, by decide, ?_, ?_⟩
  · intro text h
    by_cases he : text.isEmpty = true
    · have ht : text = [] := by cases text with | nil => rfl | cons a t => simp at he
      subst ht; rfl
    · simp only [extract_price_range, he, Bool.false_eq_true, if_false, ite_false, h]
  · intro text h1 h2
    by_cases he : text.isEmpty = true
    · simp only [extract_price_range, he, if_true, ite_true]
    · simp only [extract_price_range, he, Bool.false_eq_true, if_false, ite_false, h1]
      by_cases hne : (nbspFix text).isEmpty = true
      · simp only [extract_price_from_text, hne, if_true, ite_true]
      · simp only [extract_price_from_text, hne, Bool.false_eq_true, if_false, ite_false,
          nbspFix_idem, h2]

/-- Witness for C7's universal parts at a concrete input with no currency
pattern. -/
theorem C7_price_parsing_witness :
    extract_price_range "sem moeda aqui".toList = none :=
  C7_price_parsing.2.2.2 "sem moeda aqui".toList (by decide) (by decide)

-- ----------------- Claim C8 -----------------

def C8title : Str := "🔥 50% OFF Placa de Vídeo RTX".toList

/-- C8 counterexample: on the claim's own example input the output of
`clean_title_for_display` still contains the percentage token `%` and the
promotional word `OFF` — the formatter strips price fragments, not
promotional vocabulary or percentage fragments. -/
theorem C8_counterexample :
    pyIn "%".toList (clean_title_for_display (some C8title) (some "R$ 1,00".toList)) = true ∧
    pyIn "OFF".toList (clean_title_for_display (some C8title) (some "R$ 1,00".toList)) = true := by
  refine ⟨by decide, by decide⟩

/-- C8 (amended): the display formatter strips raw price fragments and
leading "De:" markers, normalizes spacing (after `%`, at camel-case and
letter–digit joins), collapses whitespace and trims stray punctuation, but
does NOT strip promotional vocabulary or percentage tokens (on the example
title the output is unchanged).  The result is always non-empty; the
fallback for a cleaned-to-empty title is the raw title whenever that is
truthy, and the fixed placeholder "Oferta" only otherwise. -/
theorem C8_formatter_nonempty :
    (∀ raw price : Option Str, clean_title_for_display raw price ≠ []) ∧
    clean_title_for_display (some C8title) (some "R$ 1,00".toList) = C8title ∧
    clean_title_for_display (some "R$ 100,00".toList) none = "R$ 100,00".toList := by
  refine ⟨?_, by decide, by decide⟩
  intro raw price
  simp only [clean_title_for_display]
  by_cases h0 : (pyStrip (raw.getD [])).isEmpty = true
  · simp [h0]
  · simp only [h0, Bool.false_eq_true, if_false, ite_false]
    split
    · cases raw with
      | none => simp
      | some r =>
        by_cases hre : r.isEmpty = true
        · simp [hre]
        · simp only [hre, Bool.false_eq_true, if_false, ite_false]
          intro hc
          rw [hc] at hre
          exact hre rfl
    · next h =>
      intro hc
      exact h (by rw [hc]; rfl)

/-- Witness for C8's universal part at a concrete input. -/
theorem C8_formatter_nonempty_witness :
    clean_title_for_display (some "x".toList) none ≠ [] :=
  C8_formatter_nonempty.1 (some "x".toList) none

-- ----------------- Claim C9 -----------------

def C9cfg : AffConfig := ⟨some "t20".toList, some "k7".toList, none⟩
def C9link : Str := "https://www.amazon.com.br/dp/B0?u=kabum.com.br".toList

/-- C9 counterexample: the affiliate rewrite is not idempotent for every link
— on a link containing two retailer domains the first application appends the
Amazon tag and the second application then appends the Kabum parameter too. -/
theorem C9_counterexample :
    apply_affiliate C9cfg (apply_affiliate C9cfg C9link (some "Amazon".toList))
      (some "Amazon".toList)
      ≠ apply_affiliate C9cfg C9link (some "Amazon".toList) := by decide

lemma apply_affiliate_noop (cfg : AffConfig) (link : Str) (shop : Option Str)
    (hA : (pyIn amazonDomain link && truthyOpt cfg.amazonTag && !pyIn tagMark link) = false)
    (hK : (pyIn kabumDomain link && truthyOpt cfg.kabum && !pyIn affMark link) = false)
    (hP : (pyIn pichauDomain link && truthyOpt cfg.pichau && !pyIn affMark link) = false) :
    apply_affiliate cfg link shop = link := by
  unfold apply_affiliate
  split
  · rfl
  · simp only [hA, hK, hP, Bool.false_eq_true, if_false, ite_false]

lemma pyIn_appended_false (d link k3 val : Str) (sep : Char)
    (hn : d ≠ []) (hsep : sep = '?' ∨ sep = '&')
    (hq : '?' ∉ d) (ha : '&' ∉ d) (he : '=' ∉ d)
    (hlink : pyIn d link = false) (hk : pyIn d k3 = false) (hval : pyIn d val = false) :
    pyIn d (link ++ sep :: (k3 ++ '=' :: val)) = false := by
  have hcsep : sep ∉ d := by
    rcases hsep with rfl | rfl
    · exact hq
    · exact ha
  exact pyIn_append_cons_false d link (k3 ++ '=' :: val) sep hcsep hn hlink
    (pyIn_append_cons_false d k3 val '=' he hn hk hval)

lemma pyIn_marker_appended (mk rest link : Str) (sep : Char) :
    pyIn mk (link ++ sep :: (mk ++ rest)) = true :=
  pyIn_append_right mk link _
    (pyIn_cons_of mk sep _ (pyIn_of_startsWith mk _ (listStartsWith_append mk rest)))

/-- C9 (amended): the affiliate rewrite appends the retailer-specific
parameter only when one is configured and the link does not already contain
the marker substring (`tag=` for Amazon, `aff` for Kabum/Pichau), returning
the link unchanged otherwise; it is idempotent for every link that contains
at most one of the three retailer domain substrings, provided the configured
affiliate values contain no retailer domain (on links containing several
retailer domains a second application can append a second parameter). -/
theorem C9_affiliate_idempotent (cfg : AffConfig) (link : Str) (shop : Option Str)
    (hak : ¬(pyIn amazonDomain link = true ∧ pyIn kabumDomain link = true))
    (hap : ¬(pyIn amazonDomain link = true ∧ pyIn pichauDomain link = true))
    (hkp : ¬(pyIn kabumDomain link = true ∧ pyIn pichauDomain link = true))
    (hva : ∀ v, cfg.amazonTag = some v →
      pyIn amazonDomain v = false ∧ pyIn kabumDomain v = false ∧ pyIn pichauDomain v = false)
    (hvk : ∀ v, cfg.kabum = some v →
      pyIn amazonDomain v = false ∧ pyIn kabumDomain v = false ∧ pyIn pichauDomain v = false)
    (hvp : ∀ v, cfg.pichau = some v →
      pyIn amazonDomain v = false ∧ pyIn kabumDomain v = false ∧ pyIn pichauDomain v = false) :
    apply_affiliate cfg (apply_affiliate cfg link shop) shop
      = apply_affiliate cfg link shop := by
  by_cases hg : (link.isEmpty || !truthyOpt shop) = true
  · have h0 : apply_affiliate cfg link shop = link := by
      unfold apply_affiliate; rw [if_pos hg]
    rw [h0]
    exact h0
  · cases hA : (pyIn amazonDomain link && truthyOpt cfg.amazonTag && !pyIn tagMark link) with
    | true =>
      have hA' := hA
      simp only [Bool.and_eq_true, Bool.not_eq_true'] at hA'
      obtain ⟨⟨hdomA, htr⟩, hnomark⟩ := hA'
      obtain ⟨tA, htA⟩ : ∃ v, cfg.amazonTag = some v := by
        cases hcfg : cfg.amazonTag with
        | none => rw [hcfg] at htr; simp [truthyOpt] at htr
        | some v => exact ⟨v, rfl⟩
      have hkabLink : pyIn kabumDomain link = false := by
        cases hb : pyIn kabumDomain link
        · rfl
        · exact absurd ⟨hdomA, hb⟩ hak
      have hpicLink : pyIn pichauDomain link = false := by
        cases hb : pyIn pichauDomain link
        · rfl
        · exact absurd ⟨hdomA, hb⟩ hap
      have hfl : apply_affiliate cfg link shop = addParam link tagMark tA := by
        unfold apply_affiliate
        rw [if_neg hg, if_pos hA, htA]
        rfl
      rw [hfl]
      have hsplit : (tagMark ++ tA : Str) = "tag".toList ++ '=' :: tA := rfl
      by_cases hq : pyIn ['?'] link = true
      · have hshape : addParam link tagMark tA = link ++ '&' :: (tagMark ++ tA) := by
          unfold addParam; rw [if_pos hq]
        have f1 : pyIn tagMark (link ++ '&' :: (tagMark ++ tA)) = true :=
          pyIn_marker_appended tagMark tA link '&'
        have f2 : pyIn kabumDomain (link ++ '&' :: (tagMark ++ tA)) = false := by
          rw [hsplit]
          exact pyIn_appended_false kabumDomain link "tag".toList tA '&'
            (by decide) (Or.inr rfl) (by decide) (by decide) (by decide)
            hkabLink (by decide) (hva tA htA).2.1
        have f3 : pyIn pichauDomain (link ++ '&' :: (tagMark ++ tA)) = false := by
          rw [hsplit]
          exact pyIn_appended_false pichauDomain link "tag".toList tA '&'
            (by decide) (Or.inr rfl) (by decide) (by decide) (by decide)
            hpicLink (by decide) (hva tA htA).2.2
        rw [hshape]
        exact apply_affiliate_noop cfg _ shop (by rw [f1]; simp) (by rw [f2]; rfl)
          (by rw [f3]; rfl)
      · have hshape : addParam link tagMark tA = link ++ '?' :: (tagMark ++ tA) := by
          unfold addParam; rw [if_neg hq]
        have f1 : pyIn tagMark (link ++ '?' :: (tagMark ++ tA)) = true :=
          pyIn_marker_appended tagMark tA link '?'
        have f2 : pyIn kabumDomain (link ++ '?' :: (tagMark ++ tA)) = false := by
          rw [hsplit]
          exact pyIn_appended_false kabumDomain link "tag".toList tA '?'
            (by decide) (Or.inl rfl) (by decide) (by decide) (by decide)
            hkabLink (by decide) (hva tA htA).2.1
        have f3 : pyIn pichauDomain (link ++ '?' :: (tagMark ++ tA)) = false := by
          rw [hsplit]
          exact pyIn_appended_false pichauDomain link "tag".toList tA '?'
            (by decide) (Or.inl rfl) (by decide) (by decide) (by decide)
            hpicLink (by decide) (hva tA htA).2.2
        rw [hshape]
        exact apply_affiliate_noop cfg _ shop (by rw [f1]; simp) (by rw [f2]; rfl)
          (by rw [f3]; rfl)
    | false =>
      cases hK : (pyIn kabumDomain link && truthyOpt cfg.kabum && !pyIn affMark link) with
      | true =>
        have hK' := hK
        simp only [Bool.and_eq_true, Bool.not_eq_true'] at hK'
        obtain ⟨⟨hdomK, htr⟩, hnomark⟩ := hK'
        obtain ⟨vK, htK⟩ : ∃ v, cfg.kabum = some v := by
          cases hcfg : cfg.kabum with
          | none => rw [hcfg] at htr; simp [truthyOpt] at htr
          | some v => exact ⟨v, rfl⟩
        have hamaLink : pyIn amazonDomain link = false := by
          cases hb : pyIn amazonDomain link
          · rfl
          · exact absurd ⟨hb, hdomK⟩ hak
        have hfl : apply_affiliate cfg link shop = addParam link "aff=".toList vK := by
          unfold apply_affiliate
          rw [if_neg hg, if_neg (by rw [hA]; exact Bool.false_ne_true), if_pos hK, htK]
          rfl
        rw [hfl]
        have hsplit : ("aff=".toList ++ vK : Str) = affMark ++ '=' :: vK := rfl
        by_cases hq : pyIn ['?'] link = true
        · have hshape : addParam link "aff=".toList vK
              = link ++ '&' :: ("aff=".toList ++ vK) := by
            unfold addParam; rw [if_pos hq]
          have f1 : pyIn affMark (link ++ '&' :: ("aff=".toList ++ vK)) = true := by
            rw [hsplit]
            exact pyIn_marker_appended affMark ('=' :: vK) link '&'
          have f2 : pyIn amazonDomain (link ++ '&' :: ("aff=".toList ++ vK)) = false := by
            rw [hsplit]
            exact pyIn_appended_false amazonDomain link "aff".toList vK '&'
              (by decide) (Or.inr rfl) (by decide) (by decide) (by decide)
              hamaLink (by decide) (hvk vK htK).1
          rw [hshape]
          exact apply_affiliate_noop cfg _ shop (by rw [f2]; rfl) (by rw [f1]; simp)
            (by rw [f1]; simp)
        · have hshape : addParam link "aff=".toList vK
              = link ++ '?' :: ("aff=".toList ++ vK) := by
            unfold addParam; rw [if_neg hq]
          have f1 : pyIn affMark (link ++ '?' :: ("aff=".toList ++ vK)) = true := by
            rw [hsplit]
            exact pyIn_marker_appended affMark ('=' :: vK) link '?'
          have f2 : pyIn amazonDomain (link ++ '?' :: ("aff=".toList ++ vK)) = false := by
            rw [hsplit]
            exact pyIn_appended_false amazonDomain link "aff".toList vK '?'
              (by decide) (Or.inl rfl) (by decide) (by decide) (by decide)
              hamaLink (by decide) (hvk vK htK).1
          rw [hshape]
          exact apply_affiliate_noop cfg _ shop (by rw [f2]; rfl) (by rw [f1]; simp)
            (by rw [f1]; simp)
      | false =>
        cases hP : (pyIn pichauDomain link && truthyOpt cfg.pichau && !pyIn affMark link) with
        | true =>
          have hP' := hP
          simp only [Bool.and_eq_true, Bool.not_eq_true'] at hP'
          obtain ⟨⟨hdomP, htr⟩, hnomark⟩ := hP'
          obtain ⟨vP, htP⟩ : ∃ v, cfg.pichau = some v := by
            cases hcfg : cfg.pichau with
            | none => rw [hcfg] at htr; simp [truthyOpt] at htr
            | some v => exact ⟨v, rfl⟩
          have hamaLink : pyIn amazonDomain link = false := by
            cases hb : pyIn amazonDomain link
            · rfl
            · exact absurd ⟨hb, hdomP⟩ hap
          have hfl : apply_affiliate cfg link shop = addParam link "aff=".toList vP := by
            unfold apply_affiliate
            rw [if_neg hg, if_neg (by rw [hA]; exact Bool.false_ne_true),
              if_neg (by rw [hK]; exact Bool.false_ne_true), if_pos hP, htP]
            rfl
          rw [hfl]
          have hsplit : ("aff=".toList ++ vP : Str) = affMark ++ '=' :: vP := rfl
          by_cases hq : pyIn ['?'] link = true
          · have hshape : addParam link "aff=".toList vP
                = link ++ '&' :: ("aff=".toList ++ vP) := by
              unfold addParam; rw [if_pos hq]
            have f1 : pyIn affMark (link ++ '&' :: ("aff=".toList ++ vP)) = true := by
              rw [hsplit]
              exact pyIn_marker_appended affMark ('=' :: vP) link '&'
            have f2 : pyIn amazonDomain (link ++ '&' :: ("aff=".toList ++ vP)) = false := by
              rw [hsplit]
              exact pyIn_appended_false amazonDomain link "aff".toList vP '&'
                (by decide) (Or.inr rfl) (by decide) (by decide) (by decide)
                hamaLink (by decide) (hvp vP htP).1
            rw [hshape]
            exact apply_affiliate_noop cfg _ shop (by rw [f2]; rfl) (by rw [f1]; simp)
              (by rw [f1]; simp)
          · have hshape : addParam link "aff=".toList vP
                = link ++ '?' :: ("aff=".toList ++ vP) := by
              unfold addParam; rw [if_neg hq]
            have f1 : pyIn affMark (link ++ '?' :: ("aff=".toList ++ vP)) = true := by
              rw [hsplit]
              exact pyIn_marker_appended affMark ('=' :: vP) link '?'
            have f2 : pyIn amazonDomain (link ++ '?' :: ("aff=".toList ++ vP)) = false := by
              rw [hsplit]
              exact pyIn_appended_false amazonDomain link "aff".toList vP '?'
                (by decide) (Or.inl rfl) (by decide) (by decide) (by decide)
                hamaLink (by decide) (hvp vP htP).1
            rw [hshape]
            exact apply_affiliate_noop cfg _ shop (by rw [f2]; rfl) (by rw [f1]; simp)
              (by rw [f1]; simp)
        | false =>
          have hfl : apply_affiliate cfg link shop = link :=
            apply_affiliate_noop cfg link shop hA hK hP
          rw [hfl]
          exact hfl

def C9wlink : Str := "https://www.kabum.com.br/produto/1".toList

/-- Witness for C9 (amended) at a concrete input: a kabum-only link with
domain-free configured values. -/
theorem C9_affiliate_idempotent_witness :
    apply_affiliate C9cfg (apply_affiliate C9cfg C9wlink (some "KaBuM".toList))
      (some "KaBuM".toList)
      = apply_affiliate C9cfg C9wlink (some "KaBuM".toList) :=
  C9_affiliate_idempotent C9cfg C9wlink (some "KaBuM".toList)
    (by decide) (by decide) (by decide)
    (by
      intro v hv
      have h2 : some "t20".toList = some v := hv
      injection h2 with h
      subst h
      exact ⟨by decide, by decide, by decide⟩)
    (by
      intro v hv
      have h2 : some "k7".toList = some v := hv
      injection h2 with h
      subst h
      exact ⟨by decide, by decide, by decide⟩)
    (by
      intro v hv
      have h2 : (none : Option Str) = some v := hv
      exact Option.noConfusion h2)
